import Mathlib

/-!
Shallow embedding of `src/driver/razercommon.c` (openrazer driver fork).

The per-device key-translation registry is modelled as a Lean list standing in
for the kernel intrusive doubly-linked list: `list_add` prepends a node right
after the head, and `list_for_each_entry` iterates from the head, so the Lean
list order is exactly the traversal order of the source.  Byte buffers are
lists of byte values (`Nat`); a `u16` field filled by `memcpy` from two
consecutive buffer bytes is read in little-endian order (the choice of
endianness is consistent between the set and get directions, which is all the
source relies on).  USB transfers are modelled by passing each transfer's
outcome (status code and buffer contents after the transfer) as explicit
oracle arguments.  `printk` logging and the debug-only `razer_count_translations`
calls have no effect on state and are omitted.
-/

/-- Modelled from the spec: `struct razer_key_translation` is declared in
`razercommon.h`, which is not among the sources; per the spec a
`KeyTranslation` holds `from : u16` (source keycode), `to : u16` (destination
keycode) and `flags : u8` (reserved, set to 0 on creation). -/
structure razer_key_translation where
  «from» : Nat
  «to» : Nat
  flags : Nat
deriving DecidableEq, Repr

/-- Modelled from the spec: `struct razer_device_translations` (declared in
`razercommon.h`, not among the sources) holds the `u16` device id and the
array of currently bound entries; its intrusive `list_head` becomes the
surrounding Lean list. -/
structure razer_device_translations where
  id : Nat
  translations : List razer_key_translation
deriving DecidableEq, Repr

/-- Modelled from the spec: `RAZER_USB_REPORT_LEN` (defined in
`razercommon.h`, not among the sources) is the fixed frame length, 90 bytes. -/
def RAZER_USB_REPORT_LEN : Nat := 90

/-- `razer_get_device`: walk the device list and return the first set whose
`id` matches (`list_for_each_entry` over `translations->list`). -/
def razer_get_device : List razer_device_translations → Nat → Option razer_device_translations
  | [], _ => none
  | d :: rest, i => if d.id = i then some d else razer_get_device rest i

/-- `list_del` applied to the node just returned by `razer_get_device`:
remove the first set whose `id` matches (no change when no set matches). -/
def list_del : List razer_device_translations → Nat → List razer_device_translations
  | [], _ => []
  | d :: rest, i => if d.id = i then rest else d :: list_del rest i

/-- In-place mutation of the node returned by `razer_get_device`: apply `f`
to the first set whose `id` matches, keep everything else. -/
def mapFirstDevice (f : razer_device_translations → razer_device_translations) :
    List razer_device_translations → Nat → List razer_device_translations
  | [], _ => []
  | d :: rest, i => if d.id = i then f d :: rest else d :: mapFirstDevice f rest i

/-- `razer_alloc_translations`: a freshly `kzalloc`ed array of `length`
zero-initialised entries. -/
def razer_alloc_translations (length : Nat) : List razer_key_translation :=
  List.replicate length ⟨0, 0, 0⟩

/-- One iteration of the binding-set loop of `razer_set_translations`:
`memcpy(it->translations[offset], buf + offset * bindingSize, bindingSize)`
reads two consecutive `u16` (four bytes, little-endian) from the buffer, and
the following statement clears `flags`. -/
def decodeEntry (buf : List Nat) (offset : Nat) : razer_key_translation :=
  { «from» := buf.getD (4 * offset) 0 + 256 * buf.getD (4 * offset + 1) 0
    «to» := buf.getD (4 * offset + 2) 0 + 256 * buf.getD (4 * offset + 3) 0
    flags := 0 }

/-- The `for (offset = 0; offset < bindingsCount; offset++)` loop of
`razer_set_translations`, acting on the entry array: every index `< n` is
overwritten with the entry decoded from the buffer at that offset. -/
def writeEntries (buf : List Nat) (n : Nat) :
    Nat → List razer_key_translation → List razer_key_translation
  | _, [] => []
  | i, t :: ts => (if i < n then decodeEntry buf i else t) :: writeEntries buf n (i + 1) ts

/-- `razer_init_translations`: `INIT_LIST_HEAD` — the registry starts with no
device bound. -/
def razer_init_translations : List razer_device_translations := []

/-- `razer_set_translations` from the source, faithfully including its length
checks: `count == sizeof(u8)` (a one-byte write) deletes the bindings of the
device *only when the device currently has some*; otherwise the buffer length
is validated with `count % sizeof(u16) != 0` (note: modulo 2, not modulo
`bindingSize == 4`); then the set is created / reallocated as needed and the
first `count / 4` entries are copied in from the buffer.  The result is the
returned status (`0` changed, `1` deleted, `2` invalid length) paired with the
registry after the call. -/
def razer_set_translations (translations : List razer_device_translations) (id : Nat)
    (buf : List Nat) : Nat × List razer_device_translations :=
  let count := buf.length
  let bindingsCount := count / 4
  if count = 1 ∧ (razer_get_device translations id).isSome = true then
    (1, list_del translations id)
  else if count % 2 ≠ 0 then
    (2, translations)
  else
    let reg1 :=
      if (razer_get_device translations id).isSome = true then translations
      else { id := id, translations := razer_alloc_translations bindingsCount } :: translations
    let reg2 := mapFirstDevice
      (fun d =>
        if d.translations.length ≠ bindingsCount then
          { d with translations := razer_alloc_translations bindingsCount }
        else d) reg1 id
    let reg3 := mapFirstDevice
      (fun d => { d with translations := writeEntries buf bindingsCount 0 d.translations })
      reg2 id
    (0, reg3)

/-- Byte serialisation used by the dump loop of `razer_get_translations`: each
iteration `memcpy`s the first four bytes of one entry into the output buffer,
i.e. `from` (lo, hi) then `to` (lo, hi). -/
def encodeTranslations : List razer_key_translation → List Nat
  | [] => []
  | t :: ts => t.«from» % 256 :: t.«from» / 256 :: t.«to» % 256 :: t.«to» / 256 :: encodeTranslations ts

/-- `razer_get_translations`: dump all bindings of the device into the user
buffer and return the flushed size; when the device has no set, `strcpy(buf,
"\x00")` writes the single terminator byte and 1 is returned.  The result is
the pair (bytes written to the output buffer, returned size). -/
def razer_get_translations (translations : List razer_device_translations) (id : Nat) :
    List Nat × Nat :=
  match razer_get_device translations id with
  | some device => (encodeTranslations device.translations, 4 * device.translations.length)
  | none => ([0], 1)

/-- The scan loop of `razer_get_translation`: return the first entry whose
`from` equals the key. -/
def findTranslation (key : Nat) : List razer_key_translation → Option razer_key_translation
  | [] => none
  | t :: ts => if t.«from» = key then some t else findTranslation key ts

/-- `razer_get_translation`: look up the device, then linearly scan its
entries for the first whose `from` field equals `key`; `NULL` (here `none`)
when the device has no set or nothing matches. -/
def razer_get_translation (translations : List razer_device_translations) (id key : Nat) :
    Option razer_key_translation :=
  match razer_get_device translations id with
  | some device => findTranslation key device.translations
  | none => none

/-- `razer_calculate_crc`: the report is viewed through its 90 raw bytes
(`(unsigned char*)report`); the loop `for (i = 2; i < 88; i++) crc ^= _report[i]`
XOR-folds the bytes at offsets 2..87. -/
def razer_calculate_crc (report : List Nat) : Nat :=
  (List.range' 2 86).foldl (fun crc i => Nat.xor crc (report.getD i 0)) 0

/-- `ENOMEM` errno value used via `-ENOMEM` in the source. -/
def enomem_errno : Int := 12

/-- `EIO` errno value used via `-EIO` in the source. -/
def eio_errno : Int := 5

/-- `razer_send_control_msg`: `allocOk` says whether the `kmemdup` of the
frame succeeded, and `len` is the environment's result for the
`usb_control_msg` set-report transfer (byte count, or a negative error
status).  The first component is the returned status; the second and third
count the allocations and frees of the transient transfer buffer performed
during the call (the source `kfree`s the buffer before inspecting `len`). -/
def razer_send_control_msg (allocOk : Bool) (len : Int) : Int × Nat × Nat :=
  if allocOk then
    ((if len < 0 then len
      else if len ≠ (RAZER_USB_REPORT_LEN : Int) then -eio_errno else 0), 1, 1)
  else (-enomem_errno, 0, 0)

/-- `razer_get_usb_response`: `allocOk` says whether the `kzalloc` of the
receive buffer succeeded; `send_retval` is the value the source stores from
the inner `razer_send_control_msg` call into `retval` and never reads again;
`len` and `buf` are the environment's result for the get-report
`usb_control_msg` transfer (status, and the content of the zero-initialised
receive buffer after the transfer); `response_report` is the caller's report
before the call.  The source `memcpy`s the buffer into the caller's report
unconditionally and only afterwards compares `len` with 90; the result is the
returned status paired with the caller's report after the call. -/
def razer_get_usb_response (allocOk : Bool) (send_retval : Int) (len : Int)
    (buf : List Nat) (response_report : List Nat) : Int × List Nat :=
  if allocOk then
    ((if len ≠ 90 then 1 else 0), buf)
  else (-enomem_errno, response_report)

/-- Proof-side regrouping of the decoded buffer: the same entries that
`decodeEntry` reads at offsets `0..n-1`, obtained by peeling four bytes at a
time. -/
def decodeChunks : Nat → List Nat → List razer_key_translation
  | 0, _ => []
  | n + 1, buf =>
    ⟨buf.getD 0 0 + 256 * buf.getD 1 0, buf.getD 2 0 + 256 * buf.getD 3 0, 0⟩ ::
      decodeChunks n (buf.drop 4)

theorem razer_get_device_id {l : List razer_device_translations} {i : Nat}
    {d : razer_device_translations} (h : razer_get_device l i = some d) : d.id = i := by
  induction l with
  | nil => simp [razer_get_device] at h
  | cons e rest ih =>
    by_cases he : e.id = i
    · rw [razer_get_device, if_pos he] at h
      injection h with h
      subst h
      exact he
    · rw [razer_get_device, if_neg he] at h
      exact ih h

theorem razer_get_device_eq_none {l : List razer_device_translations} {i : Nat} :
    razer_get_device l i = none ↔ ∀ d ∈ l, d.id ≠ i := by
  induction l with
  | nil => simp [razer_get_device]
  | cons d rest ih =>
    by_cases h : d.id = i
    · simp [razer_get_device, h]
    · simp [razer_get_device, h, ih]

theorem razer_get_device_list_del {l : List razer_device_translations} {i : Nat}
    (hnd : (l.map (fun d => d.id)).Nodup) :
    razer_get_device (list_del l i) i = none := by
  induction l with
  | nil => rfl
  | cons d rest ih =>
    simp only [List.map_cons, List.nodup_cons] at hnd
    by_cases h : d.id = i
    · rw [list_del, if_pos h, razer_get_device_eq_none]
      intro e he hei
      exact hnd.1 (List.mem_map.mpr ⟨e, he, by rw [hei, h]⟩)
    · rw [list_del, if_neg h, razer_get_device, if_neg h]
      exact ih hnd.2

theorem set_translations_single_byte (l : List razer_device_translations) (i b : Nat) :
    razer_set_translations l i [b] =
      if (razer_get_device l i).isSome = true then (1, list_del l i) else (2, l) := by
  by_cases h : (razer_get_device l i).isSome = true
  · simp [razer_set_translations, h]
  · simp [razer_set_translations, h]

theorem razer_get_device_mapFirstDevice
    (f : razer_device_translations → razer_device_translations)
    (hf : ∀ d, (f d).id = d.id) (l : List razer_device_translations) (i : Nat) :
    razer_get_device (mapFirstDevice f l i) i = (razer_get_device l i).map f := by
  induction l with
  | nil => rfl
  | cons d rest ih =>
    by_cases h : d.id = i
    · simp [mapFirstDevice, razer_get_device, h, hf]
    · simp [mapFirstDevice, razer_get_device, h, ih]

theorem writeEntries_eq_map (buf : List Nat) (n : Nat) :
    ∀ (i : Nat) (ts : List razer_key_translation), i + ts.length = n →
      writeEntries buf n i ts = (List.range' i ts.length).map (decodeEntry buf) := by
  intro i ts
  induction ts generalizing i with
  | nil => intro _; rfl
  | cons t ts ih =>
    intro h
    have hi : i < n := by
      simp only [List.length_cons] at h
      omega
    have hrec := ih (i + 1) (by simp only [List.length_cons] at h; omega)
    simp only [writeEntries, if_pos hi, List.length_cons, List.range'_succ i ts.length 1,
      List.map_cons, hrec]

theorem getD_drop (l : List Nat) (i j : Nat) : (l.drop i).getD j 0 = l.getD (i + j) 0 := by
  simp [List.getD_eq_getElem?_getD, List.getElem?_drop]

theorem range'_map_decodeEntry (buf : List Nat) :
    ∀ (n i : Nat), (List.range' i n).map (decodeEntry buf) = decodeChunks n (buf.drop (4 * i)) := by
  intro n
  induction n with
  | zero => intro i; rfl
  | succ n ih =>
    intro i
    rw [List.range'_succ i n 1, List.map_cons, ih (i + 1), decodeChunks]
    have hdrop : (buf.drop (4 * i)).drop 4 = buf.drop (4 * (i + 1)) := by
      rw [List.drop_drop]
      congr 1
    rw [hdrop]
    congr 1
    simp only [decodeEntry, getD_drop, Nat.add_zero]

theorem encode_decodeChunks :
    ∀ (n : Nat) (buf : List Nat), buf.length = 4 * n → (∀ b ∈ buf, b < 256) →
      encodeTranslations (decodeChunks n buf) = buf := by
  intro n
  induction n with
  | zero =>
    intro buf hlen _
    rw [decodeChunks, encodeTranslations]
    exact (List.eq_nil_of_length_eq_zero (by omega)).symm
  | succ n ih =>
    intro buf hlen hb
    rcases buf with _ | ⟨b0, buf⟩
    · simp only [List.length_nil] at hlen
      omega
    rcases buf with _ | ⟨b1, buf⟩
    · simp only [List.length_cons, List.length_nil] at hlen
      omega
    rcases buf with _ | ⟨b2, buf⟩
    · simp only [List.length_cons, List.length_nil] at hlen
      omega
    rcases buf with _ | ⟨b3, rest⟩
    · simp only [List.length_cons, List.length_nil] at hlen
      omega
    have hrest : rest.length = 4 * n := by
      simp only [List.length_cons] at hlen
      omega
    have hb0 : b0 < 256 := hb b0 (by simp)
    have hb2 : b2 < 256 := hb b2 (by simp)
    have hbr : ∀ b ∈ rest, b < 256 := fun b hbm => hb b (by simp [hbm])
    show (b0 + 256 * b1) % 256 :: (b0 + 256 * b1) / 256 :: (b2 + 256 * b3) % 256 ::
        (b2 + 256 * b3) / 256 :: encodeTranslations (decodeChunks n rest) =
      b0 :: b1 :: b2 :: b3 :: rest
    rw [Nat.add_mul_mod_self_left, Nat.mod_eq_of_lt hb0,
      Nat.add_mul_mod_self_left, Nat.mod_eq_of_lt hb2,
      Nat.add_mul_div_left _ _ (by norm_num : 0 < 256),
      Nat.add_mul_div_left _ _ (by norm_num : 0 < 256),
      Nat.div_eq_of_lt hb0, Nat.div_eq_of_lt hb2, Nat.zero_add, Nat.zero_add,
      ih rest hrest hbr]

theorem encode_range_map (n : Nat) (buf : List Nat) (hlen : buf.length = 4 * n)
    (hb : ∀ b ∈ buf, b < 256) :
    encodeTranslations ((List.range n).map (decodeEntry buf)) = buf := by
  rw [List.range_eq_range' n, range'_map_decodeEntry buf n 0,
    show 4 * 0 = 0 from rfl, List.drop_zero]
  exact encode_decodeChunks n buf hlen hb

theorem razer_set_translations_valid (reg : List razer_device_translations) (id : Nat)
    (buf : List Nat) (n : Nat) (hn : 1 ≤ n) (hlen : buf.length = 4 * n) :
    (razer_set_translations reg id buf).1 = 0 ∧
    razer_get_device (razer_set_translations reg id buf).2 id =
      some ⟨id, (List.range n).map (decodeEntry buf)⟩ := by
  have hc1 : ¬(buf.length = 1 ∧ (razer_get_device reg id).isSome = true) := by
    rintro ⟨h1, -⟩
    omega
  have hc2 : ¬(buf.length % 2 ≠ 0) := by
    intro h
    exact h (by omega)
  have hbc : buf.length / 4 = n := by omega
  have hf1 : ∀ d : razer_device_translations,
      (if d.translations.length ≠ n then
          ({ d with translations := razer_alloc_translations n } : razer_device_translations)
        else d).id = d.id := by
    intro d
    by_cases h : d.translations.length ≠ n
    · rw [if_pos h]
    · rw [if_neg h]
  simp only [razer_set_translations, hbc]
  rw [if_neg hc1, if_neg hc2]
  refine ⟨rfl, ?_⟩
  dsimp only
  rw [razer_get_device_mapFirstDevice
      (fun d => { d with translations := writeEntries buf n 0 d.translations })
      (fun d => rfl),
    razer_get_device_mapFirstDevice
      (fun d =>
        if d.translations.length ≠ n then
          { d with translations := razer_alloc_translations n }
        else d)
      hf1]
  cases hg : razer_get_device reg id with
  | some d0 =>
    have hid0 : d0.id = id := razer_get_device_id hg
    rw [if_pos (Option.isSome_some : (some d0).isSome = true), hg]
    by_cases hl : d0.translations.length ≠ n
    · simp only [Option.map_some', if_pos hl]
      rw [writeEntries_eq_map buf n 0 _ (by simp [razer_alloc_translations])]
      simp [razer_alloc_translations, ← List.range_eq_range', hid0]
    · simp only [Option.map_some', if_neg hl]
      push_neg at hl
      rw [writeEntries_eq_map buf n 0 _ (by omega)]
      simp [hl, ← List.range_eq_range', hid0]
  | none =>
    rw [if_neg (by simp : ¬(none : Option razer_device_translations).isSome = true)]
    have hhead : razer_get_device
        ({ id := id, translations := razer_alloc_translations n } :: reg) id =
        some { id := id, translations := razer_alloc_translations n } := by
      simp [razer_get_device]
    rw [hhead]
    have hlalloc : ¬((razer_alloc_translations n).length ≠ n) := by
      simp [razer_alloc_translations]
    simp only [Option.map_some', if_neg hlalloc]
    rw [writeEntries_eq_map buf n 0 _ (by simp [razer_alloc_translations])]
    simp [razer_alloc_translations, ← List.range_eq_range']

theorem foldl_xor_init (g : Nat → Nat) (l : List Nat) (c x : Nat) :
    l.foldl (fun a i => a ^^^ g i) (c ^^^ x) = (l.foldl (fun a i => a ^^^ g i) c) ^^^ x := by
  induction l generalizing c with
  | nil => rfl
  | cons j rest ih =>
    simp only [List.foldl_cons]
    rw [Nat.xor_assoc, Nat.xor_comm x (g j), ← Nat.xor_assoc, ih]

theorem foldl_xor_congr (g g' : Nat → Nat) (l : List Nat) (h : ∀ i ∈ l, g i = g' i) (c : Nat) :
    l.foldl (fun a i => a ^^^ g i) c = l.foldl (fun a i => a ^^^ g' i) c := by
  induction l generalizing c with
  | nil => rfl
  | cons j rest ih =>
    simp only [List.foldl_cons]
    rw [h j (List.mem_cons_self j rest)]
    exact ih (fun i hi => h i (List.mem_cons_of_mem _ hi)) _

theorem foldl_xor_single_diff (g g' : Nat → Nat) (l : List Nat) (i : Nat)
    (hi : i ∈ l) (hnd : l.Nodup) (hoff : ∀ j ∈ l, j ≠ i → g j = g' j) (c : Nat) :
    l.foldl (fun a k => a ^^^ g' k) c = (l.foldl (fun a k => a ^^^ g k) c) ^^^ g i ^^^ g' i := by
  induction l generalizing c with
  | nil => cases hi
  | cons j rest ih =>
    rw [List.nodup_cons] at hnd
    rcases List.mem_cons.mp hi with heq | hmem
    · subst heq
      simp only [List.foldl_cons]
      have hcon : rest.foldl (fun a k => a ^^^ g' k) (c ^^^ g' i) =
          rest.foldl (fun a k => a ^^^ g k) (c ^^^ g' i) :=
        (foldl_xor_congr g g' rest
          (fun k hk => hoff k (List.mem_cons_of_mem _ hk) (fun hki => hnd.1 (hki ▸ hk))) _).symm
      rw [hcon, foldl_xor_init g rest c (g' i), foldl_xor_init g rest c (g i),
        Nat.xor_cancel_right]
    · have hji : j ≠ i := fun h => hnd.1 (h ▸ hmem)
      simp only [List.foldl_cons]
      rw [hoff j (List.mem_cons_self _ _) hji]
      exact ih hmem hnd.2 (fun k hk hki => hoff k (List.mem_cons_of_mem _ hk) hki) _

theorem xor_fold_cancel (c a b : Nat) : c ^^^ a ^^^ b = c ↔ a = b := by
  rw [Nat.xor_assoc]
  constructor
  · intro h
    have h1 : c ^^^ (c ^^^ (a ^^^ b)) = c ^^^ c := congrArg (c ^^^ ·) h
    rw [Nat.xor_cancel_left, Nat.xor_self] at h1
    exact Nat.xor_eq_zero.mp h1
  · intro h
    rw [h, Nat.xor_self, Nat.xor_zero]

theorem findTranslation_eq_none {key : Nat} {ts : List razer_key_translation} :
    findTranslation key ts = none ↔ ∀ t ∈ ts, t.«from» ≠ key := by
  induction ts with
  | nil => simp [findTranslation]
  | cons t ts ih =>
    by_cases h : t.«from» = key
    · simp [findTranslation, h]
    · simp [findTranslation, h, ih]

theorem findTranslation_first {key : Nat} {ts : List razer_key_translation}
    {t : razer_key_translation} (h : findTranslation key ts = some t) :
    t.«from» = key ∧
      ∃ i, ∃ hi : i < ts.length, ts.get ⟨i, hi⟩ = t ∧
        ∀ j, ∀ hj : j < ts.length, j < i → (ts.get ⟨j, hj⟩).«from» ≠ key := by
  induction ts with
  | nil => simp [findTranslation] at h
  | cons a ts ih =>
    by_cases ha : a.«from» = key
    · rw [findTranslation, if_pos ha] at h
      injection h with h
      subst h
      exact ⟨ha, 0, by simp, rfl, fun j hj hj0 => absurd hj0 (by omega)⟩
    · rw [findTranslation, if_neg ha] at h
      obtain ⟨hkey, i, hi, hget, hfirst⟩ := ih h
      refine ⟨hkey, i + 1, by simpa using Nat.succ_lt_succ hi, hget, ?_⟩
      intro j hj hji
      cases j with
      | zero => exact ha
      | succ j =>
        have hj' : j < ts.length := by
          simp only [List.length_cons] at hj
          omega
        exact hfirst j hj' (by omega)

/-- Claim C1 (code-bug evaluation at the failing input): a 6-byte buffer has
length neither 1 nor a multiple of 4, yet `razer_set_translations` accepts it
— the source validates `count % sizeof(u16)` instead of a multiple-of-4 check
— returning 0 (translations changed) and mutating the registry with a
1-entry set decoded from the first four bytes. -/
theorem set_translations_len6_accepted :
    razer_set_translations razer_init_translations 7 [2, 0, 30, 0, 3, 0] =
      (0, [⟨7, [⟨2, 30, 0⟩]⟩]) := by decide

/-- Claim C2 (counterexample): a one-byte write for a device with no bound
set does not produce the Deleted outcome 1 — it falls through the delete
branch and is rejected by the `count % sizeof(u16)` check with status 2. -/
theorem set_translations_delete_not_idempotent :
    razer_set_translations razer_init_translations 7 [0] = (2, razer_init_translations) := by
  decide

/-- Claim C2 (amended): a one-byte buffer (any value) acts as a delete only
when a set exists for the id — the set's node is unlinked, status 1 is
returned, and the id is unbound afterwards; when no set exists the write
falls through the delete branch and is rejected with status 2, leaving the
registry unchanged (the delete is not idempotent). -/
theorem set_translations_single_byte_delete (reg : List razer_device_translations)
    (id b : Nat) (hnd : (reg.map (fun d => d.id)).Nodup) :
    (∀ d, razer_get_device reg id = some d →
        razer_set_translations reg id [b] = (1, list_del reg id) ∧
        razer_get_device (list_del reg id) id = none) ∧
    (razer_get_device reg id = none → razer_set_translations reg id [b] = (2, reg)) := by
  constructor
  · intro d hd
    refine ⟨?_, razer_get_device_list_del hnd⟩
    rw [set_translations_single_byte, if_pos (by rw [hd]; rfl)]
  · intro h
    rw [set_translations_single_byte, if_neg (by rw [h]; simp)]

/-- Witness for the amended C2 theorem at concrete inputs: a bound device is
deleted with status 1 and is unbound afterwards; an unbound device gets
status 2 with the registry unchanged. -/
theorem set_translations_single_byte_delete_witness :
    (razer_set_translations [⟨5, [⟨1, 2, 0⟩]⟩] 5 [9] = (1, list_del [⟨5, [⟨1, 2, 0⟩]⟩] 5) ∧
      razer_get_device (list_del [⟨5, [⟨1, 2, 0⟩]⟩] 5) 5 = none) ∧
    razer_set_translations razer_init_translations 5 [9] = (2, razer_init_translations) :=
  ⟨(set_translations_single_byte_delete [⟨5, [⟨1, 2, 0⟩]⟩] 5 9 (by decide)).1
      ⟨5, [⟨1, 2, 0⟩]⟩ (by decide),
    (set_translations_single_byte_delete razer_init_translations 5 9 (by decide)).2 (by decide)⟩

/-- Claim C3 (code-bug evaluation at the failing input): starting from the
initialised empty registry, a 2-byte write passes the `count % sizeof(u16)`
check with `count / 4 = 0` entries, so a set with 0 entries is created,
retained in the registry, and reported as a successful change. -/
theorem set_translations_retains_empty_set :
    razer_set_translations razer_init_translations 7 [0, 0] = (0, [⟨7, []⟩]) := by decide

/-- Claim C4: `razer_calculate_crc` depends exactly on the bytes at offsets
2..87 of the 90-byte report: for two reports that agree on that window except
possibly at one offset `i` inside it (the bytes at offsets 0, 1, 88, 89 are
unconstrained), the checksums agree iff the bytes at `i` agree — flipping any
byte outside the window never changes the result, flipping the byte at `i`
always does, and the function is deterministic in the window. -/
theorem crc_window (r r' : List Nat) (i : Nat) (hr : r.length = 90) (hr' : r'.length = 90)
    (h2 : 2 ≤ i) (h87 : i ≤ 87)
    (hoff : ∀ j, j < 88 → 2 ≤ j → j ≠ i → r.getD j 0 = r'.getD j 0) :
    (razer_calculate_crc r = razer_calculate_crc r' ↔ r.getD i 0 = r'.getD i 0) := by
  have hmem : i ∈ List.range' 2 86 := by
    rw [List.mem_range'_1]
    omega
  have key : razer_calculate_crc r' = razer_calculate_crc r ^^^ r.getD i 0 ^^^ r'.getD i 0 :=
    foldl_xor_single_diff (fun j => r.getD j 0) (fun j => r'.getD j 0) (List.range' 2 86) i
      hmem (List.nodup_range' 2 86)
      (fun j hj hji => by
        rw [List.mem_range'_1] at hj
        exact hoff j (by omega) (by omega) hji) 0
  constructor
  · intro h
    refine (xor_fold_cancel (razer_calculate_crc r) (r.getD i 0) (r'.getD i 0)).mp ?_
    rw [← key]
    exact h.symm
  · intro h
    rw [key, h, Nat.xor_cancel_right]

/-- Witness for the C4 theorem: two concrete 90-byte reports differing at
offset 0 (outside the window) and offset 50 (inside it), instantiating the
theorem at i = 50. -/
theorem crc_window_witness :
    razer_calculate_crc (List.replicate 90 0) =
        razer_calculate_crc (((List.replicate 90 0).set 0 7).set 50 3) ↔
      (List.replicate 90 0).getD 50 0 = (((List.replicate 90 0).set 0 7).set 50 3).getD 50 0 :=
  crc_window (List.replicate 90 0) (((List.replicate 90 0).set 0 7).set 50 3) 50
    (by decide) (by decide) (by decide) (by decide) (by decide)

/-- Claim C5: for every n ≥ 1, device id and prior registry, a write of
exactly 4n bytes is accepted with status 0, binds the id to exactly the n
entries decoded positionally from the buffer (with flags 0), and an
immediately following `razer_get_translations` returns size 4n and reproduces
the buffer byte for byte — hence the same (from, to) pairs in the same
order. -/
theorem set_get_roundtrip (reg : List razer_device_translations) (id : Nat) (buf : List Nat)
    (n : Nat) (hn : 1 ≤ n) (hlen : buf.length = 4 * n) (hbytes : ∀ b ∈ buf, b < 256) :
    (razer_set_translations reg id buf).1 = 0 ∧
    razer_get_device (razer_set_translations reg id buf).2 id =
      some ⟨id, (List.range n).map (decodeEntry buf)⟩ ∧
    razer_get_translations (razer_set_translations reg id buf).2 id = (buf, 4 * n) := by
  obtain ⟨h0, hget⟩ := razer_set_translations_valid reg id buf n hn hlen
  refine ⟨h0, hget, ?_⟩
  simp only [razer_get_translations, hget]
  rw [encode_range_map n buf hlen hbytes]
  simp

/-- Witness for the C5 theorem: binding device 7 with a concrete two-entry
buffer and reading it back. -/
theorem set_get_roundtrip_witness :
    (razer_set_translations razer_init_translations 7 [2, 0, 30, 0, 3, 0, 48, 0]).1 = 0 ∧
    razer_get_device
        (razer_set_translations razer_init_translations 7 [2, 0, 30, 0, 3, 0, 48, 0]).2 7 =
      some ⟨7, (List.range 2).map (decodeEntry [2, 0, 30, 0, 3, 0, 48, 0])⟩ ∧
    razer_get_translations
        (razer_set_translations razer_init_translations 7 [2, 0, 30, 0, 3, 0, 48, 0]).2 7 =
      ([2, 0, 30, 0, 3, 0, 48, 0], 4 * 2) :=
  set_get_roundtrip razer_init_translations 7 [2, 0, 30, 0, 3, 0, 48, 0] 2
    (by decide) (by decide) (by decide)

/-- Claim C6: when a device id has no bound set `razer_get_translations`
writes the single terminator byte 0 and returns 1; and immediately after any
one-byte write for that id (whether or not a set existed before, and whatever
the byte's value) the id is unbound, so the same sentinel is produced. -/
theorem get_translations_no_set (reg : List razer_device_translations) (id b : Nat)
    (hnd : (reg.map (fun d => d.id)).Nodup) :
    (razer_get_device reg id = none → razer_get_translations reg id = ([0], 1)) ∧
    razer_get_translations (razer_set_translations reg id [b]).2 id = ([0], 1) := by
  constructor
  · intro h
    simp [razer_get_translations, h]
  · rw [set_translations_single_byte]
    by_cases h : (razer_get_device reg id).isSome = true
    · rw [if_pos h]
      simp [razer_get_translations, razer_get_device_list_del hnd]
    · rw [if_neg h]
      have hnone : razer_get_device reg id = none := by
        cases hg : razer_get_device reg id
        · rfl
        · rw [hg] at h
          simp at h
      simp [razer_get_translations, hnone]

/-- Witness for the C6 theorem: the empty registry yields the 1-byte sentinel
for device 7, and so does reading device 7 right after a one-byte delete write
on a registry where device 7 was bound. -/
theorem get_translations_no_set_witness :
    razer_get_translations razer_init_translations 7 = ([0], 1) ∧
    razer_get_translations (razer_set_translations [⟨7, [⟨1, 2, 0⟩]⟩] 7 [0]).2 7 = ([0], 1) :=
  ⟨(get_translations_no_set razer_init_translations 7 0 (by decide)).1 (by decide),
    (get_translations_no_set [⟨7, [⟨1, 2, 0⟩]⟩] 7 0 (by decide)).2⟩

/-- Claim C7: `razer_get_translation` is a linear scan returning the first
(earliest-stored) entry whose `from` equals the key — when it returns an
entry, some index holds that entry and every earlier index fails to match,
even when several entries share the `from` value — and it returns none
exactly when the device has no set or no entry matches. -/
theorem get_translation_first_match (reg : List razer_device_translations) (id key : Nat) :
    (razer_get_translation reg id key = none ↔
      razer_get_device reg id = none ∨
        ∃ d, razer_get_device reg id = some d ∧ ∀ t ∈ d.translations, t.«from» ≠ key) ∧
    (∀ t, razer_get_translation reg id key = some t →
      t.«from» = key ∧
        ∃ d, razer_get_device reg id = some d ∧
          ∃ i, ∃ hi : i < d.translations.length,
            d.translations.get ⟨i, hi⟩ = t ∧
              ∀ j, ∀ hj : j < d.translations.length, j < i →
                (d.translations.get ⟨j, hj⟩).«from» ≠ key) := by
  cases hg : razer_get_device reg id with
  | none =>
    constructor
    · simp [razer_get_translation, hg]
    · intro t ht
      simp [razer_get_translation, hg] at ht
  | some d =>
    constructor
    · simp only [razer_get_translation, hg]
      rw [findTranslation_eq_none]
      constructor
      · intro h
        exact Or.inr ⟨d, rfl, h⟩
      · rintro (h | ⟨d', hd', h⟩)
        · exact absurd h (by simp)
        · injection hd' with hd'
          subst hd'
          exact h
    · intro t ht
      simp only [razer_get_translation, hg] at ht
      obtain ⟨hkey, i, hi, hget, hfirst⟩ := findTranslation_first ht
      exact ⟨hkey, d, rfl, i, hi, hget, hfirst⟩

/-- Witness for the C7 theorem: with device 7 bound to two entries sharing
`from = 2`, the lookup of key 2 yields the earlier entry ⟨2, 30, 0⟩, via the
theorem's first-match characterisation. -/
theorem get_translation_first_match_witness :
    (razer_key_translation.mk 2 30 0).«from» = 2 ∧
      ∃ d, razer_get_device [⟨7, [⟨2, 30, 0⟩, ⟨2, 99, 0⟩]⟩] 7 = some d ∧
        ∃ i, ∃ hi : i < d.translations.length,
          d.translations.get ⟨i, hi⟩ = ⟨2, 30, 0⟩ ∧
            ∀ j, ∀ hj : j < d.translations.length, j < i →
              (d.translations.get ⟨j, hj⟩).«from» ≠ 2 :=
  (get_translation_first_match [⟨7, [⟨2, 30, 0⟩, ⟨2, 99, 0⟩]⟩] 7 2).2 ⟨2, 30, 0⟩ (by decide)

/-- Claim C8: whatever the initial send's outcome, `razer_get_usb_response`
still uses the subsequent get-report transfer, and with the receive buffer
allocated its result is determined solely by that transfer: the output is
identical for any two send outcomes (and any prior report), the status is 1
exactly when the get transfer returned other than 90 bytes, 0 exactly when it
returned 90, and on success the caller receives the buffer as-is even when
its embedded checksum byte does not match — no checksum validation occurs. -/
theorem get_usb_response_send_independent (s1 s2 len : Int) (buf r1 r2 : List Nat) :
    razer_get_usb_response true s1 len buf r1 = razer_get_usb_response true s2 len buf r2 ∧
    ((razer_get_usb_response true s1 len buf r1).1 = 1 ↔ len ≠ 90) ∧
    ((razer_get_usb_response true s1 len buf r1).1 = 0 ↔ len = 90) ∧
    ((len = 90 ∧ razer_calculate_crc buf ≠ buf.getD 88 0) →
      razer_get_usb_response true s1 len buf r1 = (0, buf)) := by
  by_cases h : len = 90 <;> simp [razer_get_usb_response, h]

/-- Witness for the C8 theorem: a failed send (status -5) followed by a
complete 90-byte get transfer of a buffer whose embedded checksum byte is
wrong still succeeds with the buffer as response. -/
theorem get_usb_response_send_independent_witness :
    razer_get_usb_response true (-5) 90 [0, 0, 1] [9] = (0, [0, 0, 1]) :=
  (get_usb_response_send_independent (-5) 0 90 [0, 0, 1] [9] [7]).2.2.2 ⟨rfl, by decide⟩

/-- Claim C9: with the frame buffer allocated, `razer_send_control_msg`
returns 0 exactly when the transfer moved exactly `RAZER_USB_REPORT_LEN = 90`
bytes; a negative transfer status is propagated unchanged; a non-negative
byte count different from the frame length yields `-EIO`; and in every case
(either allocation outcome) the transient buffer allocations performed by the
call are matched by frees. -/
theorem send_control_msg_status (allocOk : Bool) (len : Int) :
    ((razer_send_control_msg true len).1 = 0 ↔ len = 90) ∧
    (len < 0 → (razer_send_control_msg true len).1 = len) ∧
    (0 ≤ len → len ≠ 90 → (razer_send_control_msg true len).1 = -eio_errno) ∧
    (razer_send_control_msg allocOk len).2.1 = (razer_send_control_msg allocOk len).2.2 := by
  have h90 : ((RAZER_USB_REPORT_LEN : Nat) : Int) = 90 := by norm_num [RAZER_USB_REPORT_LEN]
  refine ⟨?_, ?_, ?_, ?_⟩
  · constructor
    · intro h
      by_contra hne
      by_cases hneg : len < 0
      · simp [razer_send_control_msg, hneg] at h
        omega
      · have hne' : len ≠ (RAZER_USB_REPORT_LEN : Int) := by
          rw [h90]
          exact hne
        simp [razer_send_control_msg, hneg, hne', eio_errno] at h
    · intro h
      subst h
      simp [razer_send_control_msg, h90, RAZER_USB_REPORT_LEN]
  · intro hneg
    simp [razer_send_control_msg, hneg]
  · intro hpos hne
    have hneg : ¬len < 0 := by omega
    have hne' : len ≠ (RAZER_USB_REPORT_LEN : Int) := by
      rw [h90]
      exact hne
    simp [razer_send_control_msg, hneg, hne']
  · cases allocOk <;> simp [razer_send_control_msg]

/-- Witness for the C9 theorem at concrete transfer outcomes: 90 bytes give
status 0, status -3 is propagated, a short 10-byte transfer gives -EIO. -/
theorem send_control_msg_status_witness :
    (razer_send_control_msg true 90).1 = 0 ∧
    (razer_send_control_msg true (-3)).1 = -3 ∧
    (razer_send_control_msg true 10).1 = -eio_errno :=
  ⟨(send_control_msg_status true 90).1.mpr rfl,
    (send_control_msg_status true (-3)).2.1 (by norm_num),
    (send_control_msg_status true 10).2.2.1 (by norm_num) (by norm_num)⟩

/-- Claim C10 (implicit): `razer_get_usb_response` copies the receive buffer
into the caller's report before checking the transfer length, so even when it
returns the error outcome 1 the caller's report has already been overwritten
with the (zero-initialised / partially filled) buffer contents — the output
report is not left unchanged on error. -/
theorem get_usb_response_overwrites_on_error (s len : Int) (buf prior : List Nat)
    (herr : (razer_get_usb_response true s len buf prior).1 = 1) :
    (razer_get_usb_response true s len buf prior).2 = buf := by
  simp [razer_get_usb_response]

/-- Witness for the C10 theorem: a failed get transfer (0 bytes) still
replaces the caller's prior report [9] with the receive-buffer contents. -/
theorem get_usb_response_overwrites_on_error_witness :
    (razer_get_usb_response true 0 0 [1, 2] [9]).2 = [1, 2] :=
  get_usb_response_overwrites_on_error 0 0 [1, 2] [9] (by decide)
